import Mathlib

set_option maxRecDepth 4000

/-!
Shallow embedding of the recipe-book repository's computational core
(`src/converter.py`, `src/shopping.py`, `src/recipe.py`) and proofs about it.

Modelling conventions:
* Python numbers (ints and floats) are modelled as exact rationals `ℚ`.
  All amounts appearing in the claims and in the conversion tables are
  decimal literals, which `ℚ` represents exactly.
* Python's `round(x, n)` (round-half-to-even on the value) is modelled by
  `pyRound` below, a round-half-to-even on rationals.  No claim in this
  development depends on the behaviour at an exact decimal tie.
* Python dicts are modelled as insertion-ordered association lists
  (`List (String × α)`): assignment to an existing key replaces the value
  in place, assignment to a fresh key appends at the end — exactly the
  observable behaviour of a CPython dict.
* The heterogeneous `amount` field (number or free-text string) is the
  tagged variant `Amount`.
* The statement `combined[unit] += amount` in `format_shopping_list`
  raises `TypeError` when the stored value is a string and `amount` is
  numeric; fallible code is therefore embedded in `Except Unit`.
* `load_recipes()` performs file I/O; the aggregator is embedded as a
  function of the loaded record store (a `List Recipe` parameter).
-/

/-- Round-half-to-even of a rational to an integer, the rounding used by
Python's builtin `round`. -/
def pyRound (q : ℚ) : ℤ :=
  let f : ℤ := Rat.floor q
  let r : ℚ := q - f
  if r < 1/2 then f
  else if 1/2 < r then f + 1
  else if f % 2 = 0 then f else f + 1

/-- Python's `round(q, 3)`. -/
def round3 (q : ℚ) : ℚ := (pyRound (q * 1000) : ℚ) / 1000

/-- Python's `round(q, 2)`. -/
def round2 (q : ℚ) : ℚ := (pyRound (q * 100) : ℚ) / 100

/-- Python's `str.lower()` (ASCII, which covers every unit alias and
recipe/item name the code compares): lower each character. -/
def strLower (s : String) : String := ⟨s.data.map Char.toLower⟩

/-- A Python ingredient/shopping amount: a number or a free-text string. -/
inductive Amount : Type
  | num (q : ℚ)
  | text (s : String)
deriving DecidableEq, Repr

/-- Lookup in an association list keyed by strings (Python `dict` read). -/
def alookup {α : Type} : List (String × α) → String → Option α
  | [], _ => none
  | (k', v) :: rest, k => if k' = k then some v else alookup rest k

/-- Python `dict` assignment `d[k] = v`: replace in place if the key is
present, append at the end otherwise. -/
def aset {α : Type} (d : List (String × α)) (k : String) (v : α) :
    List (String × α) :=
  if (alookup d k).isSome then
    d.map (fun p => (p.1, if p.1 = k then v else p.2))
  else d ++ [(k, v)]

/-- `VOLUME_CONVERSIONS` from `src/converter.py`: factors to milliliters. -/
def VOLUME_CONVERSIONS : List (String × ℚ) :=
  [("ml", 1), ("milliliter", 1), ("milliliters", 1),
   ("l", 1000), ("liter", 1000), ("liters", 1000),
   ("tsp", 4.929), ("teaspoon", 4.929), ("teaspoons", 4.929),
   ("tbsp", 14.787), ("tablespoon", 14.787), ("tablespoons", 14.787),
   ("cup", 236.588), ("cups", 236.588),
   ("fl oz", 29.574), ("fluid ounce", 29.574), ("fluid ounces", 29.574)]

/-- `WEIGHT_CONVERSIONS` from `src/converter.py`: factors to grams. -/
def WEIGHT_CONVERSIONS : List (String × ℚ) :=
  [("g", 1), ("gram", 1), ("grams", 1),
   ("kg", 1000), ("kilogram", 1000), ("kilograms", 1000),
   ("oz", 28.3495), ("ounce", 28.3495), ("ounces", 28.3495),
   ("lb", 453.592), ("pound", 453.592), ("pounds", 453.592)]

/-- `convert_unit` from `src/converter.py`: lowercase both unit names,
try the volume table, then the weight table, else `None`. -/
def convert_unit (amount : ℚ) (from_unit to_unit : String) : Option ℚ :=
  let fu := strLower from_unit
  let tu := strLower to_unit
  match alookup VOLUME_CONVERSIONS fu, alookup VOLUME_CONVERSIONS tu with
  | some f, some t => some (round3 (amount * f / t))
  | _, _ =>
    match alookup WEIGHT_CONVERSIONS fu, alookup WEIGHT_CONVERSIONS tu with
    | some f, some t => some (round3 (amount * f / t))
    | _, _ => none

/-- An ingredient record: a Python dict with optional keys `item`,
`amount`, `unit` (consumers apply `.get` defaults). -/
structure Ingredient : Type where
  item : Option String
  amount : Option Amount
  unit : Option String
deriving DecidableEq, Repr

/-- `Recipe` from `src/recipe.py`, with the constructor's defaults. -/
structure Recipe : Type where
  name : String
  ingredients : List Ingredient
  instructions : List String
  prep_time : ℚ := 0
  cook_time : ℚ := 0
  servings : ℚ := 1
  category : String := ""
  rating : ℤ := 0
deriving DecidableEq, Repr

/-- `scale_recipe` from `src/converter.py`: factor `new_servings / servings`
(`1` when `servings == 0`); numeric amounts become `round(amount*factor, 2)`,
other amounts are copied unchanged; the result is a fresh `Recipe` built
without passing `rating` (so the constructor default `0` applies). -/
def scale_recipe (recipe : Recipe) (new_servings : ℤ) : Recipe :=
  let scale_factor : ℚ :=
    if recipe.servings = 0 then 1 else (new_servings : ℚ) / recipe.servings
  let scaled_ingredients := recipe.ingredients.map (fun ing =>
    match ing.amount with
    | some (Amount.num q) =>
        { ing with amount := some (Amount.num (round2 (q * scale_factor))) }
    | _ => ing)
  { name := recipe.name,
    ingredients := scaled_ingredients,
    instructions := recipe.instructions,
    prep_time := recipe.prep_time,
    cook_time := recipe.cook_time,
    servings := (new_servings : ℚ),
    category := recipe.category }

/-- One shopping-list entry `{"amount": .., "unit": .., "recipe": ..}`
appended by `generate_shopping_list` in `src/shopping.py`. -/
structure Entry : Type where
  amount : Amount
  unit : String
  recipe : String
deriving DecidableEq, Repr

/-- The shopping dict: lowercased item name → ordered entries. -/
abbrev Shopping : Type := List (String × List Entry)

/-- `shopping[item].append(e)` on a `defaultdict(list)`: a fresh key gets
an empty bucket (appended at the end of the dict), then `e` is appended. -/
def shoppingAppend (s : Shopping) (k : String) (e : Entry) : Shopping :=
  aset s k ((alookup s k).getD [] ++ [e])

/-- `generate_shopping_list` from `src/shopping.py`.  The Python code reads
the store with `load_recipes()` (file I/O); here the loaded store is the
`recipes` parameter.  `recipe_dict` is the comprehension
`{r.name.lower(): r for r in recipes}` (later recipes overwrite earlier
ones with the same lowercased name). -/
def generate_shopping_list (recipes : List Recipe) (recipe_names : List String) :
    Shopping :=
  let recipe_dict : List (String × Recipe) :=
    recipes.foldl (fun d r => aset d (strLower r.name) r) []
  recipe_names.foldl (fun shopping name =>
    match alookup recipe_dict (strLower name) with
    | some recipe =>
        recipe.ingredients.foldl (fun shopping ing =>
          shoppingAppend shopping (strLower (ing.item.getD ""))
            { amount := ing.amount.getD (Amount.num 0),
              unit := ing.unit.getD "",
              recipe := recipe.name }) shopping
    | none => shopping) []

/-- One step of the `combined` accumulation in `format_shopping_list`:
`combined[unit] += amount` for a numeric amount (`defaultdict(float)`
supplies `0.0` for a fresh unit; CPython raises `TypeError` when the
stored value is a string), `combined[unit] = amount` for a non-numeric
amount. -/
def combineStep (combined : List (String × Amount)) (e : Entry) :
    Except Unit (List (String × Amount)) :=
  match e.amount with
  | Amount.num q =>
    match alookup combined e.unit with
    | some (Amount.text _) => Except.error ()
    | some (Amount.num q0) => Except.ok (aset combined e.unit (Amount.num (q0 + q)))
    | none => Except.ok (aset combined e.unit (Amount.num (0 + q)))
  | Amount.text s => Except.ok (aset combined e.unit (Amount.text s))

/-- The whole `combined` loop of `format_shopping_list` for one item. -/
def combineEntries (entries : List Entry) : Except Unit (List (String × Amount)) :=
  entries.foldlM combineStep []

/-- Lexicographic (code-point) comparison of char lists, the order Python
uses on strings. -/
def charListLt : List Char → List Char → Bool
  | [], [] => false
  | [], _ :: _ => true
  | _ :: _, [] => false
  | c :: cs, d :: ds => if c < d then true else if d < c then false else charListLt cs ds

/-- Python `a <= b` on strings. -/
def strLe (a b : String) : Bool := ! charListLt b.data a.data

/-- Insert an item into a key-sorted item list (helper for `sortItems`). -/
def insertItem (p : String × List Entry) :
    List (String × List Entry) → List (String × List Entry)
  | [] => [p]
  | q :: rest => if strLe p.1 q.1 then p :: q :: rest else q :: insertItem p rest

/-- Python's `sorted(shopping_dict.items())`: ascending by item name (dict
keys are unique, so comparison never reaches the values and stability is
irrelevant; insertion sort realizes it structurally). -/
def sortItems : List (String × List Entry) → List (String × List Entry)
  | [] => []
  | p :: rest => insertItem p (sortItems rest)

/-- Display of a combined amount.  The source converts a float equal to its
integer part to `int` before formatting; a non-integer float's rendering is
modelled by Lean's rational rendering (no claim depends on digit formats). -/
def amountDisplay (a : Amount) : String :=
  match a with
  | Amount.num q => if q.den = 1 then toString q.num else toString q
  | Amount.text s => s

/-- Python truthiness of an amount (`elif amount:`): zero and the empty
string are falsy. -/
def amountTruthy (a : Amount) : Bool :=
  match a with
  | Amount.num q => q != 0
  | Amount.text s => s != ""

/-- `format_shopping_list` from `src/shopping.py`.  `Except.error ()` marks
the `TypeError` CPython raises in `combined[unit] += amount` when the
stored bucket value is a string and `amount` is numeric. -/
def format_shopping_list (shopping_dict : Shopping) : Except Unit String :=
  if shopping_dict.isEmpty then Except.ok "Shopping list is empty."
  else do
    let sorted_items := sortItems shopping_dict
    let body ← sorted_items.mapM (fun p => do
      let combined ← combineEntries p.2
      let parts := combined.foldl (fun parts uq =>
        if uq.1 ≠ "" then parts ++ [amountDisplay uq.2 ++ " " ++ uq.1]
        else if amountTruthy uq.2 then parts ++ [amountDisplay uq.2]
        else parts) []
      pure (if ¬ parts.isEmpty then
              "  [ ] " ++ p.1 ++ ": " ++ String.intercalate ", " parts
            else "  [ ] " ++ p.1))
    Except.ok (String.intercalate "\n" (["\n--- Shopping List ---\n"] ++ body ++ [""]))

/-- The resolution performed by `recipe_dict` in `generate_shopping_list`:
the LAST recipe whose lowercased name equals the (lowercased) key wins,
because later comprehension entries overwrite earlier ones. -/
def resolveRecipe (recipes : List Recipe) (k : String) : Option Recipe :=
  match recipes with
  | [] => none
  | r :: rest =>
    match resolveRecipe rest k with
    | some r' => some r'
    | none => if strLower r.name = k then some r else none

/-- The entries the claim says end up in bucket `k`: walking the requested
names in order, each resolved recipe contributes one
`{amount, unit, source recipe name}` entry per ingredient whose lowercased
item name is `k`; unresolved names contribute nothing. -/
def specEntries (recipes : List Recipe) (names : List String) (k : String) :
    List Entry :=
  names.flatMap (fun name =>
    match resolveRecipe recipes (strLower name) with
    | some r =>
        (r.ingredients.filter (fun ing => strLower (ing.item.getD "") = k)).map
          (fun ing => { amount := ing.amount.getD (Amount.num 0),
                        unit := ing.unit.getD "",
                        recipe := r.name })
    | none => [])

/-- One step of the unit-bucket accumulation as the spec describes it:
numeric amounts are added to the bucket of the entry's literal unit string
(an absent bucket starts at `0`), a free-text amount overwrites the bucket
(last one wins).  The spec does not say what a numeric amount does to a
bucket currently holding free text (the code raises there); that branch is
never reached under the success hypothesis of the theorem comparing this
with the code. -/
def specCombineStep (m : List (String × Amount)) (e : Entry) :
    List (String × Amount) :=
  match e.amount with
  | Amount.num q =>
    match alookup m e.unit with
    | some (Amount.num q0) => aset m e.unit (Amount.num (q0 + q))
    | some (Amount.text _) => aset m e.unit (Amount.num q)
    | none => aset m e.unit (Amount.num (0 + q))
  | Amount.text s => aset m e.unit (Amount.text s)

/-- All amounts in the list are free text. -/
def allTextAmounts (l : List Amount) : Bool :=
  l.all (fun a => match a with | Amount.text _ => true | _ => false)

/-- A unit bucket's amount sequence avoids the `TypeError`: once a
free-text amount appears, every later amount is free text too. -/
def bucketOk : List Amount → Bool
  | [] => true
  | Amount.num _ :: rest => bucketOk rest
  | Amount.text _ :: rest => allTextAmounts rest

/-- Every unit bucket of the item's entries satisfies `bucketOk`. -/
def entriesOk (entries : List Entry) : Bool :=
  entries.all (fun e =>
    bucketOk ((entries.filter (fun e' => e'.unit = e.unit)).map
      (fun e' => e'.amount)))

/-- Appending a whole list of (item-key, entry) pairs to a shopping dict. -/
def appendAll (s : Shopping) (pairs : List (String × Entry)) : Shopping :=
  pairs.foldl (fun s p => shoppingAppend s p.1 p.2) s

/-- The (item-key, entry) pairs one resolved recipe appends. -/
def recipePairs (r : Recipe) : List (String × Entry) :=
  r.ingredients.map (fun ing => (strLower (ing.item.getD ""),
    { amount := ing.amount.getD (Amount.num 0),
      unit := ing.unit.getD "",
      recipe := r.name }))

/-- All (item-key, entry) pairs appended for a request, in order. -/
def specPairs (recipes : List Recipe) (names : List String) :
    List (String × Entry) :=
  names.flatMap (fun name =>
    match resolveRecipe recipes (strLower name) with
    | some r => recipePairs r
    | none => [])

/-- Every unit bucket of the remaining entries satisfies `bucketOk`. -/
def goodSuffix (es : List Entry) : Prop :=
  ∀ u, bucketOk ((es.filter (fun e => e.unit = u)).map (fun e => e.amount)) = true

/-- Batteries' computable `Rat.floor` is definitionally Mathlib's `⌊⌋`. -/
theorem ratFloor_eq (q : ℚ) : Rat.floor q = ⌊q⌋ := rfl

/-- `pyRound` written with `⌊⌋`, for `norm_num` evaluation. -/
theorem pyRound_eq (q : ℚ) : pyRound q =
    (if q - ⌊q⌋ < 1/2 then ⌊q⌋
     else if 1/2 < q - ⌊q⌋ then ⌊q⌋ + 1
     else if ⌊q⌋ % 2 = 0 then ⌊q⌋ else ⌊q⌋ + 1) := by
  rw [pyRound, ratFloor_eq]

/-- `pyRound` is the identity on integers. -/
theorem pyRound_intCast (n : ℤ) : pyRound (n : ℚ) = n := by
  rw [pyRound_eq]
  norm_num

/-- `pyRound` moves its argument by at most `1/2`. -/
theorem abs_pyRound_sub_le (q : ℚ) : |(pyRound q : ℚ) - q| ≤ 1/2 := by
  rw [pyRound_eq]
  have h0 : (⌊q⌋ : ℚ) ≤ q := Int.floor_le q
  have h1 : q < ⌊q⌋ + 1 := Int.lt_floor_add_one q
  split_ifs with h2 h3 h4 <;>
    (rw [abs_le]; push_cast; constructor <;> linarith)

/-- `round3` is the identity on rationals with at most three decimal
places. -/
theorem round3_eq_self (x : ℚ) (h : (1000 * x).den = 1) : round3 x = x := by
  have hx : ((1000 * x).num : ℚ) = 1000 * x := by
    conv_rhs => rw [← Rat.num_div_den (1000 * x)]
    rw [h]
    simp
  have hq : x * 1000 = ((1000 * x).num : ℚ) := by rw [hx]; ring
  rw [round3, hq, pyRound_intCast, hx]
  ring

/-- `round3` moves its argument by at most `1/2000`. -/
theorem abs_round3_sub_le (q : ℚ) : |round3 q - q| ≤ 1/2000 := by
  have h := abs_pyRound_sub_le (q * 1000)
  have hrw : round3 q - q = ((pyRound (q * 1000) : ℚ) - q * 1000) / 1000 := by
    rw [round3]; ring
  rw [hrw, abs_div]
  have h1000 : |(1000 : ℚ)| = 1000 := by norm_num
  rw [h1000, div_le_div_iff₀ (by norm_num) (by norm_num)]
  nlinarith [abs_nonneg ((pyRound (q * 1000) : ℚ) - q * 1000)]

/-- `round2` is the identity on rationals with at most two decimal
places. -/
theorem round2_eq_self (x : ℚ) (h : (100 * x).den = 1) : round2 x = x := by
  have hx : ((100 * x).num : ℚ) = 100 * x := by
    conv_rhs => rw [← Rat.num_div_den (100 * x)]
    rw [h]
    simp
  have hq : x * 100 = ((100 * x).num : ℚ) := by rw [hx]; ring
  rw [round2, hq, pyRound_intCast, hx]
  ring

/-- A successful `alookup` finds a pair of the list. -/
theorem alookup_mem {α : Type} (l : List (String × α)) (k : String) (v : α)
    (h : alookup l k = some v) : (k, v) ∈ l := by
  induction l with
  | nil => simp [alookup] at h
  | cons p rest ih =>
    obtain ⟨k', v'⟩ := p
    simp only [alookup] at h
    by_cases hk : k' = k
    · rw [if_pos hk] at h
      injection h with h
      subst h
      subst hk
      exact List.mem_cons_self _ _
    · rw [if_neg hk] at h
      exact List.mem_cons_of_mem _ (ih h)

/-- Every factor in the volume table is positive. -/
theorem vol_pos : ∀ p ∈ VOLUME_CONVERSIONS, 0 < p.2 := by
  with_unfolding_all decide

/-- Every factor in the weight table is positive. -/
theorem weight_pos : ∀ p ∈ WEIGHT_CONVERSIONS, 0 < p.2 := by
  with_unfolding_all decide

/-- A factor found in the volume table is positive. -/
theorem alookup_vol_pos (k : String) (f : ℚ)
    (h : alookup VOLUME_CONVERSIONS k = some f) : 0 < f :=
  vol_pos _ (alookup_mem _ _ _ h)

/-- A factor found in the weight table is positive. -/
theorem alookup_weight_pos (k : String) (f : ℚ)
    (h : alookup WEIGHT_CONVERSIONS k = some f) : 0 < f :=
  weight_pos _ (alookup_mem _ _ _ h)

/-- The two conversion domains are disjoint: a weight alias is absent from
the volume table. -/
theorem weight_imp_vol_none (k : String) (f : ℚ)
    (h : alookup WEIGHT_CONVERSIONS k = some f) :
    alookup VOLUME_CONVERSIONS k = none := by
  have hm := alookup_mem _ _ _ h
  simp only [WEIGHT_CONVERSIONS, List.mem_cons, Prod.mk.injEq,
    List.not_mem_nil, or_false] at hm
  rcases hm with ⟨rfl,-⟩|⟨rfl,-⟩|⟨rfl,-⟩|⟨rfl,-⟩|⟨rfl,-⟩|⟨rfl,-⟩|⟨rfl,-⟩|⟨rfl,-⟩|⟨rfl,-⟩|⟨rfl,-⟩|⟨rfl,-⟩|⟨rfl,-⟩ <;> rfl

/-- `convert_unit` on two volume aliases. -/
theorem convert_unit_vol (x : ℚ) (a b : String) (f t : ℚ)
    (ha : alookup VOLUME_CONVERSIONS (strLower a) = some f)
    (hb : alookup VOLUME_CONVERSIONS (strLower b) = some t) :
    convert_unit x a b = some (round3 (x * f / t)) := by
  simp only [convert_unit, ha, hb]

/-- `convert_unit` on two weight aliases. -/
theorem convert_unit_weight (x : ℚ) (a b : String) (f t : ℚ)
    (ha : alookup WEIGHT_CONVERSIONS (strLower a) = some f)
    (hb : alookup WEIGHT_CONVERSIONS (strLower b) = some t) :
    convert_unit x a b = some (round3 (x * f / t)) := by
  have hva := weight_imp_vol_none _ _ ha
  have hvb := weight_imp_vol_none _ _ hb
  simp only [convert_unit, hva, hvb, ha, hb]

/-- `convert_unit` returns `none` unless both units land in the volume
table or both land in the weight table. -/
theorem convert_unit_none (x : ℚ) (a b : String)
    (hv : ¬ ((alookup VOLUME_CONVERSIONS (strLower a)).isSome ∧
             (alookup VOLUME_CONVERSIONS (strLower b)).isSome))
    (hw : ¬ ((alookup WEIGHT_CONVERSIONS (strLower a)).isSome ∧
             (alookup WEIGHT_CONVERSIONS (strLower b)).isSome)) :
    convert_unit x a b = none := by
  simp only [convert_unit]
  rcases hva : alookup VOLUME_CONVERSIONS (strLower a) with _ | f <;>
    rcases hvb : alookup VOLUME_CONVERSIONS (strLower b) with _ | t <;>
    rcases hwa : alookup WEIGHT_CONVERSIONS (strLower a) with _ | g <;>
    rcases hwb : alookup WEIGHT_CONVERSIONS (strLower b) with _ | u <;>
    simp_all

/-- C3 counterexample: `convert(x, u, u)` is NOT the identity for every
amount: for `x = 1/10000` (0.0001) and `u = "ml"` the 3-decimal rounding
returns `0`, not `x`. -/
theorem C3_counterexample :
    convert_unit (1/10000) "ml" "ml" = some 0 ∧ (0 : ℚ) ≠ 1/10000 := by
  constructor
  · have h : convert_unit (1/10000) "ml" "ml" = some (round3 (1/10000 * 1 / 1)) := rfl
    rw [h, round3, pyRound_eq]
    norm_num
  · norm_num

/-- C3 (amended): for every unit alias `u` of either domain and every
amount `x` with at most three decimal places, `convert_unit x u u = x`. -/
theorem C3_identity_conversion (u : String) (x : ℚ)
    (hu : (alookup VOLUME_CONVERSIONS (strLower u)).isSome ∨
          (alookup WEIGHT_CONVERSIONS (strLower u)).isSome)
    (hx : (1000 * x).den = 1) :
    convert_unit x u u = some x := by
  rcases hu with hu | hu
  · obtain ⟨f, hf⟩ := Option.isSome_iff_exists.mp hu
    rw [convert_unit_vol x u u f f hf hf]
    have hfpos := alookup_vol_pos _ _ hf
    have hff : x * f / f = x := by field_simp
    rw [hff, round3_eq_self x hx]
  · obtain ⟨f, hf⟩ := Option.isSome_iff_exists.mp hu
    rw [convert_unit_weight x u u f f hf hf]
    have hfpos := alookup_weight_pos _ _ hf
    have hff : x * f / f = x := by field_simp
    rw [hff, round3_eq_self x hx]

/-- C3 witness: the identity conversion at `u = "cup"`, `x = 1/2`. -/
theorem C3_witness : convert_unit (1/2) "cup" "cup" = some (1/2) :=
  C3_identity_conversion "cup" (1/2) (Or.inl rfl)
    (by with_unfolding_all decide)

/-- C4 counterexample: the round trip ml → l → ml at `x = 2/5` (0.4 ml)
returns `0`, which is NOT within the 3-decimal rounding tolerance of `x`:
the first conversion rounds 0.0004 l to 0.0. -/
theorem C4_counterexample :
    convert_unit (2/5) "ml" "l" = some 0 ∧
    convert_unit 0 "l" "ml" = some 0 ∧
    ¬ (|(0 : ℚ) - 2/5| ≤ 1/1000) := by
  have habs : |(0 : ℚ) - 2/5| = 2/5 := by
    rw [zero_sub, abs_neg, abs_of_pos (show (0:ℚ) < 2/5 by norm_num)]
  refine ⟨?_, ?_, by rw [habs]; norm_num⟩
  · have h : convert_unit (2/5) "ml" "l" = some (round3 (2/5 * 1 / 1000)) := rfl
    rw [h, round3, pyRound_eq]
    norm_num
  · have h : convert_unit 0 "l" "ml" = some (round3 (0 * 1000 / 1)) := rfl
    rw [h, round3, pyRound_eq]
    norm_num

/-- C4 (amended): for aliases `a`, `b` of one domain with factors `fa`,
`fb`, a round trip `a → b → a` returns to within
`1/2000 * (1 + fb / fa)` of the original amount (so within the claimed
`0.001` only when `fb ≤ fa`; each rounding contributes `1/2000`, and the
first one is magnified by `fb / fa` on the way back). -/
theorem C4_round_trip (a b : String) (fa fb x y z : ℚ)
    (hab : (alookup VOLUME_CONVERSIONS (strLower a) = some fa ∧
            alookup VOLUME_CONVERSIONS (strLower b) = some fb) ∨
           (alookup WEIGHT_CONVERSIONS (strLower a) = some fa ∧
            alookup WEIGHT_CONVERSIONS (strLower b) = some fb))
    (h1 : convert_unit x a b = some y)
    (h2 : convert_unit y b a = some z) :
    |z - x| ≤ 1/2000 * (1 + fb / fa) := by
  have main : y = round3 (x * fa / fb) ∧ z = round3 (y * fb / fa) ∧
      0 < fa ∧ 0 < fb := by
    rcases hab with ⟨ha, hb⟩ | ⟨ha, hb⟩
    · rw [convert_unit_vol x a b fa fb ha hb] at h1
      rw [convert_unit_vol y b a fb fa hb ha] at h2
      injection h1 with h1
      injection h2 with h2
      exact ⟨h1.symm, h2.symm, alookup_vol_pos _ _ ha, alookup_vol_pos _ _ hb⟩
    · rw [convert_unit_weight x a b fa fb ha hb] at h1
      rw [convert_unit_weight y b a fb fa hb ha] at h2
      injection h1 with h1
      injection h2 with h2
      exact ⟨h1.symm, h2.symm, alookup_weight_pos _ _ ha, alookup_weight_pos _ _ hb⟩
  obtain ⟨hy, hz, hfa, hfb⟩ := main
  have hb1 : |y - x * fa / fb| ≤ 1/2000 := by rw [hy]; exact abs_round3_sub_le _
  have hb2 : |z - y * fb / fa| ≤ 1/2000 := by rw [hz]; exact abs_round3_sub_le _
  have hfa0 : fa ≠ 0 := ne_of_gt hfa
  have hfb0 : fb ≠ 0 := ne_of_gt hfb
  have hratio : (0 : ℚ) < fb / fa := by positivity
  have hdecomp : z - x = (z - y * fb / fa) + (y - x * fa / fb) * (fb / fa) := by
    field_simp
    ring
  calc |z - x| ≤ |z - y * fb / fa| + |(y - x * fa / fb) * (fb / fa)| := by
        rw [hdecomp]; exact abs_add _ _
    _ = |z - y * fb / fa| + |y - x * fa / fb| * (fb / fa) := by
        rw [abs_mul, abs_of_pos hratio]
    _ ≤ 1/2000 + 1/2000 * (fb / fa) :=
        add_le_add hb2 (mul_le_mul_of_nonneg_right hb1 (le_of_lt hratio))
    _ = 1/2000 * (1 + fb / fa) := by ring

/-- C4 witness: round trip at `a = b = "ml"`, `x = 3`. -/
theorem C4_witness : |(3 : ℚ) - 3| ≤ 1/2000 * (1 + 1/1) :=
  C4_round_trip "ml" "ml" 1 1 3 3 3 (Or.inl ⟨rfl, rfl⟩)
    (by with_unfolding_all decide) (by with_unfolding_all decide)

/-- C7: when the two units do not both resolve (case-insensitively) to
aliases of one and the same domain — either one is unknown or they belong
to different domains — `convert_unit` returns `none`; being a total Lean
function, it raises nothing. -/
theorem C7_not_convertible (x : ℚ) (a b : String)
    (hv : ¬ ((alookup VOLUME_CONVERSIONS (strLower a)).isSome ∧
             (alookup VOLUME_CONVERSIONS (strLower b)).isSome))
    (hw : ¬ ((alookup WEIGHT_CONVERSIONS (strLower a)).isSome ∧
             (alookup WEIGHT_CONVERSIONS (strLower b)).isSome)) :
    convert_unit x a b = none :=
  convert_unit_none x a b hv hw

/-- C7 witness: the spec's example `convert(1, "cup", "gram")` is absent. -/
theorem C7_witness : convert_unit 1 "cup" "gram" = none :=
  C7_not_convertible 1 "cup" "gram" (by decide) (by decide)

/-- C8: when both units resolve (case-insensitively) to one domain, the
result is `round3 (x * factor(from) / factor(to))`; in particular
`convert(2, "cups", "ml") = 473.176` and `convert(16, "tbsp", "cup") = 1.0`. -/
theorem C8_same_domain_formula :
    (∀ (x : ℚ) (a b : String) (fa fb : ℚ),
        alookup VOLUME_CONVERSIONS (strLower a) = some fa →
        alookup VOLUME_CONVERSIONS (strLower b) = some fb →
        convert_unit x a b = some (round3 (x * fa / fb))) ∧
    (∀ (x : ℚ) (a b : String) (fa fb : ℚ),
        alookup WEIGHT_CONVERSIONS (strLower a) = some fa →
        alookup WEIGHT_CONVERSIONS (strLower b) = some fb →
        convert_unit x a b = some (round3 (x * fa / fb))) ∧
    convert_unit 2 "cups" "ml" = some 473.176 ∧
    convert_unit 16 "tbsp" "cup" = some 1 := by
  refine ⟨fun x a b fa fb ha hb => convert_unit_vol x a b fa fb ha hb,
          fun x a b fa fb ha hb => convert_unit_weight x a b fa fb ha hb,
          ?_, ?_⟩
  · have h : convert_unit 2 "cups" "ml" = some (round3 (2 * 236.588 / 1)) := rfl
    rw [h, round3, pyRound_eq]
    norm_num
  · have h : convert_unit 16 "tbsp" "cup" = some (round3 (16 * 14.787 / 236.588)) := rfl
    rw [h, round3, pyRound_eq]
    norm_num

/-- C8 witness: the weight branch at `2 kg → g`. -/
theorem C8_witness : convert_unit 2 "kg" "g" = some (round3 (2 * 1000 / 1)) :=
  C8_same_domain_formula.2.1 2 "kg" "g" 1000 1 rfl rfl

/-- C5 counterexample: scaling a `servings = 0` recipe does NOT return all
ingredient amounts unchanged: a numeric amount of `1/1000` (0.001) is
rounded by `round(amount * 1, 2)` to `0`. -/
theorem C5_counterexample :
    (scale_recipe
      { name := "Porridge",
        ingredients := [⟨some "salt", some (Amount.num (1/1000)), some "g"⟩],
        instructions := [], servings := 0 } 5).ingredients
      = [⟨some "salt", some (Amount.num 0), some "g"⟩] ∧
    Amount.num 0 ≠ Amount.num (1/1000) := by
  constructor
  · with_unfolding_all decide
  · with_unfolding_all decide

/-- C5 (amended): every numeric amount becomes
`round2 (amount * factor)` with `factor = n / servings` (`1` when
`servings = 0`) and free-text amounts pass through unchanged; a recipe
with `servings = 0` keeps its ingredients unchanged provided every
numeric amount has at most two decimal places (the factor is `1`, but the
2-decimal rounding still applies). -/
theorem C5_scaling (r : Recipe) (n : ℤ) :
    ((scale_recipe r n).ingredients =
      r.ingredients.map (fun ing =>
        match ing.amount with
        | some (Amount.num q) =>
            { ing with amount := some (Amount.num (round2 (q *
                (if r.servings = 0 then 1 else (n : ℚ) / r.servings)))) }
        | _ => ing)) ∧
    (r.servings = 0 →
      (∀ ing ∈ r.ingredients, ∀ q : ℚ,
          ing.amount = some (Amount.num q) → (100 * q).den = 1) →
      (scale_recipe r n).ingredients = r.ingredients) := by
  constructor
  · rfl
  · intro h0 hden
    show (scale_recipe r n).ingredients = r.ingredients
    have hmap : (scale_recipe r n).ingredients =
        r.ingredients.map (fun ing =>
          match ing.amount with
          | some (Amount.num q) =>
              { ing with amount := some (Amount.num (round2 (q *
                  (if r.servings = 0 then 1 else (n : ℚ) / r.servings)))) }
          | _ => ing) := rfl
    rw [hmap]
    conv_rhs => rw [← List.map_id r.ingredients]
    apply List.map_congr_left
    intro ing hing
    rcases ha : ing.amount with - | a
    · simp only [ha, id]
    · rcases a with q | s
      · have hd := hden ing hing q ha
        simp only [ha, h0, if_pos rfl, mul_one, round2_eq_self q hd, id]
        cases ing
        simp_all [round2_eq_self q hd]
      · simp only [ha, id]

/-- C5 witness: a two-decimal amount in a `servings = 0` recipe is
unchanged by scaling to 7. -/
theorem C5_witness :
    (scale_recipe
      { name := "X",
        ingredients := [⟨some "salt", some (Amount.num (1/4)), some "g"⟩],
        instructions := [], servings := 0 } 7).ingredients
      = [⟨some "salt", some (Amount.num (1/4)), some "g"⟩] :=
  (C5_scaling _ 7).2 rfl (by
    intro ing hing q hq
    rw [List.mem_singleton] at hing
    subst hing
    rw [Option.some_inj] at hq
    simp only [Amount.num.injEq] at hq
    subst hq
    with_unfolding_all decide)

/-- C6: `scale_recipe` returns a new `Recipe` carrying over name,
instructions, category, prep/cook times and the ingredient ordering with
each ingredient's `item` and `unit` fields; `servings` is set to exactly
`new_servings` (any integer, including zero and negatives — no
validation).  The embedding is a pure function of `r`, so the input
recipe and the record store are untouched by construction. -/
theorem C6_frame (r : Recipe) (n : ℤ) :
    (scale_recipe r n).name = r.name ∧
    (scale_recipe r n).instructions = r.instructions ∧
    (scale_recipe r n).category = r.category ∧
    (scale_recipe r n).prep_time = r.prep_time ∧
    (scale_recipe r n).cook_time = r.cook_time ∧
    (scale_recipe r n).servings = (n : ℚ) ∧
    (scale_recipe r n).ingredients.length = r.ingredients.length ∧
    (scale_recipe r n).ingredients.map (fun i => i.item)
      = r.ingredients.map (fun i => i.item) ∧
    (scale_recipe r n).ingredients.map (fun i => i.unit)
      = r.ingredients.map (fun i => i.unit) := by
  refine ⟨rfl, rfl, rfl, rfl, rfl, rfl, ?_, ?_, ?_⟩
  · simp [scale_recipe]
  · simp only [scale_recipe, List.map_map]
    apply List.map_congr_left
    intro ing _
    rcases ha : ing.amount with - | a
    · simp [Function.comp, ha]
    · rcases a with q | s <;> simp [Function.comp, ha]
  · simp only [scale_recipe, List.map_map]
    apply List.map_congr_left
    intro ing _
    rcases ha : ing.amount with - | a
    · simp [Function.comp, ha]
    · rcases a with q | s <;> simp [Function.comp, ha]

/-- C10: the scaled copy's `rating` is always the constructor default `0`,
whatever the input's rating (the `Recipe(...)` call in `scale_recipe`
omits `rating`). -/
theorem C10_rating_reset (r : Recipe) (n : ℤ) : (scale_recipe r n).rating = 0 :=
  rfl

/-- `alookup` after a replacing `aset` write at the same key. -/
theorem alookup_map_set {α : Type} (d : List (String × α)) (k : String) (v : α) :
    alookup (d.map (fun p => (p.1, if p.1 = k then v else p.2))) k
      = (alookup d k).map (fun _ => v) := by
  induction d with
  | nil => rfl
  | cons p rest ih =>
    obtain ⟨k0, v0⟩ := p
    by_cases h : k0 = k
    · subst h
      simp [alookup, ih]
    · simp [alookup, h, ih]

/-- `alookup` at a different key ignores a replacing write. -/
theorem alookup_map_set_ne {α : Type} (d : List (String × α)) (k k' : String)
    (v : α) (hne : k' ≠ k) :
    alookup (d.map (fun p => (p.1, if p.1 = k then v else p.2))) k'
      = alookup d k' := by
  induction d with
  | nil => rfl
  | cons p rest ih =>
    obtain ⟨k0, v0⟩ := p
    by_cases h : k0 = k
    · subst h
      simp [alookup, ih, if_neg (Ne.symm hne)]
    · simp [alookup, h, ih]

/-- `alookup` distributes over append. -/
theorem alookup_append {α : Type} (d e : List (String × α)) (k : String) :
    alookup (d ++ e) k =
      match alookup d k with
      | some v => some v
      | none => alookup e k := by
  induction d with
  | nil => rfl
  | cons p rest ih =>
    obtain ⟨k0, v0⟩ := p
    by_cases h : k0 = k
    · simp only [List.cons_append, alookup, if_pos h]
    · simp only [List.cons_append, alookup, if_neg h]
      exact ih

/-- Reading back the key just written by `aset`. -/
theorem alookup_aset_self {α : Type} (d : List (String × α)) (k : String) (v : α) :
    alookup (aset d k v) k = some v := by
  rw [aset]
  by_cases h : (alookup d k).isSome
  · rw [if_pos h, alookup_map_set]
    obtain ⟨w, hw⟩ := Option.isSome_iff_exists.mp h
    rw [hw]
    rfl
  · rw [if_neg h, alookup_append]
    rw [Option.not_isSome_iff_eq_none] at h
    rw [h]
    simp [alookup]

/-- Reading another key after an `aset` write. -/
theorem alookup_aset_ne {α : Type} (d : List (String × α)) (k k' : String)
    (v : α) (hne : k' ≠ k) : alookup (aset d k v) k' = alookup d k' := by
  rw [aset]
  by_cases h : (alookup d k).isSome
  · rw [if_pos h, alookup_map_set_ne _ _ _ _ hne]
  · rw [if_neg h, alookup_append]
    cases hd : alookup d k' with
    | some w => rfl
    | none => simp [alookup, if_neg (fun hc : k = k' => hne hc.symm)]

/-- Reading back the bucket just extended by `shoppingAppend`. -/
theorem alookup_shoppingAppend_self (s : Shopping) (k : String) (e : Entry) :
    alookup (shoppingAppend s k e) k = some ((alookup s k).getD [] ++ [e]) :=
  alookup_aset_self s k _

/-- Reading another bucket after `shoppingAppend`. -/
theorem alookup_shoppingAppend_ne (s : Shopping) (k k' : String) (e : Entry)
    (hne : k' ≠ k) : alookup (shoppingAppend s k e) k' = alookup s k' :=
  alookup_aset_ne s k k' _ hne

/-- What ends up in bucket `k` after `appendAll`: the previous contents
(if any) followed by the appended entries whose key is `k`, in order. -/
theorem alookup_appendAll (pairs : List (String × Entry)) (s : Shopping)
    (k : String) :
    alookup (appendAll s pairs) k =
      (if pairs.filter (fun p => p.1 = k) = [] then alookup s k
       else some ((alookup s k).getD [] ++
         (pairs.filter (fun p => p.1 = k)).map Prod.snd)) := by
  induction pairs generalizing s with
  | nil => simp [appendAll]
  | cons p rest ih =>
    obtain ⟨k0, e⟩ := p
    have hstep : appendAll s ((k0, e) :: rest)
        = appendAll (shoppingAppend s k0 e) rest := rfl
    rw [hstep, ih]
    by_cases h : k0 = k
    · subst h
      rw [alookup_shoppingAppend_self]
      simp only [List.filter_cons, decide_True, List.map_cons]
      by_cases hrest : rest.filter (fun p => p.1 = k0) = []
      · simp [hrest]
      · simp only [hrest, if_neg (List.cons_ne_nil _ _),
          if_neg hrest]
        simp [List.append_assoc]
    · rw [alookup_shoppingAppend_ne s k0 k e (fun hc => h hc.symm)]
      simp only [List.filter_cons, decide_eq_true_eq]
      rw [if_neg h]

/-- The `recipe_dict` built by `generate_shopping_list` resolves a key to
the last recipe whose lowercased name matches, falling back to the initial
dict. -/
theorem recipeDict_lookup (recipes : List Recipe)
    (init : List (String × Recipe)) (k : String) :
    alookup (recipes.foldl (fun d r => aset d (strLower r.name) r) init) k =
      (match resolveRecipe recipes k with
       | some r => some r
       | none => alookup init k) := by
  induction recipes generalizing init with
  | nil => rfl
  | cons r rest ih =>
    have hstep : (r :: rest).foldl (fun d r => aset d (strLower r.name) r) init
        = rest.foldl (fun d r => aset d (strLower r.name) r)
            (aset init (strLower r.name) r) := rfl
    rw [hstep, ih]
    rw [resolveRecipe]
    cases hres : resolveRecipe rest k with
    | some r' => rfl
    | none =>
      by_cases h : strLower r.name = k
      · rw [if_pos h, ← h, alookup_aset_self]
      · rw [if_neg h]
        exact alookup_aset_ne init _ k r (fun hc => h hc.symm)

/-- `recipeDict_lookup` from the empty initial dict. -/
theorem recipeDict_lookup_nil (recipes : List Recipe) (k : String) :
    alookup (recipes.foldl (fun d r => aset d (strLower r.name) r) []) k =
      resolveRecipe recipes k := by
  rw [recipeDict_lookup]
  cases resolveRecipe recipes k <;> rfl

/-- The inner ingredient loop of `generate_shopping_list` appends exactly
`recipePairs`. -/
theorem inner_loop_eq (r : Recipe) (s : Shopping) :
    r.ingredients.foldl (fun shopping ing =>
      shoppingAppend shopping (strLower (ing.item.getD ""))
        { amount := ing.amount.getD (Amount.num 0),
          unit := ing.unit.getD "",
          recipe := r.name }) s = appendAll s (recipePairs r) := by
  rw [appendAll, recipePairs, List.foldl_map]

/-- `appendAll` splits over list append. -/
theorem appendAll_append (s : Shopping) (l1 l2 : List (String × Entry)) :
    appendAll s (l1 ++ l2) = appendAll (appendAll s l1) l2 :=
  List.foldl_append _ _ _ _

/-- The name loop of `generate_shopping_list` appends exactly `specPairs`. -/
theorem name_loop_eq (recipes : List Recipe) (names : List String)
    (s : Shopping) :
    names.foldl (fun shopping name =>
      match alookup (recipes.foldl (fun d r => aset d (strLower r.name) r) [])
          (strLower name) with
      | some recipe =>
          recipe.ingredients.foldl (fun shopping ing =>
            shoppingAppend shopping (strLower (ing.item.getD ""))
              { amount := ing.amount.getD (Amount.num 0),
                unit := ing.unit.getD "",
                recipe := recipe.name }) shopping
      | none => shopping) s
      = appendAll s (specPairs recipes names) := by
  induction names generalizing s with
  | nil => rfl
  | cons name rest ih =>
    rw [List.foldl_cons, ih]
    conv_rhs => rw [specPairs, List.flatMap_cons, ← specPairs, appendAll_append]
    congr 1
    rw [recipeDict_lookup_nil]
    cases hres : resolveRecipe recipes (strLower name) with
    | some r => exact inner_loop_eq r s
    | none => rfl

/-- `generate_shopping_list` is `appendAll` of `specPairs`. -/
theorem generate_eq (recipes : List Recipe) (names : List String) :
    generate_shopping_list recipes names = appendAll [] (specPairs recipes names) :=
  name_loop_eq recipes names []

/-- The entries of `specPairs` that key to `k` are exactly `specEntries`. -/
theorem specEntries_eq_filter (recipes : List Recipe) (names : List String)
    (k : String) :
    ((specPairs recipes names).filter (fun p => p.1 = k)).map Prod.snd
      = specEntries recipes names k := by
  induction names with
  | nil => rfl
  | cons name rest ih =>
    rw [specPairs, List.flatMap_cons, ← specPairs, List.filter_append,
      List.map_append, ih]
    conv_rhs => rw [specEntries, List.flatMap_cons, ← specEntries]
    congr 1
    cases hres : resolveRecipe recipes (strLower name) with
    | none => rfl
    | some r =>
      simp only [recipePairs, List.filter_map, List.map_map]
      rfl

/-- Dropping the unresolved names does not change `specPairs`. -/
theorem specPairs_filter_resolved (recipes : List Recipe) (names : List String) :
    specPairs recipes
      (names.filter (fun n => (resolveRecipe recipes (strLower n)).isSome))
      = specPairs recipes names := by
  induction names with
  | nil => rfl
  | cons name rest ih =>
    rw [List.filter_cons]
    cases hres : resolveRecipe recipes (strLower name) with
    | some r =>
      simp only [hres, Option.isSome_some, decide_True, if_true]
      conv_lhs => rw [specPairs, List.flatMap_cons, ← specPairs]
      conv_rhs => rw [specPairs, List.flatMap_cons, ← specPairs]
      rw [ih]
    | none =>
      simp only [hres, Option.isSome_none, decide_False, Bool.false_eq_true,
        if_false]
      rw [ih]
      conv_rhs => rw [specPairs, List.flatMap_cons, ← specPairs, hres]
      rfl

/-- C9: `build_shopping_list` (a) leaves no trace of requested names that
resolve to no stored recipe — the result equals the one built from the
resolvable names only, resolution being case-insensitive (and, like the
dict comprehension it embeds, last-match-wins) — and (b) buckets, for
every lowercased item key `k`, exactly the `{amount, unit, source recipe
name}` entries of the resolved recipes' ingredients whose lowercased item
name is `k`, in request order; absent keys stay absent.  The embedding is
total, so no exception is possible. -/
theorem C9_build_shopping_list (recipes : List Recipe) (names : List String) :
    (generate_shopping_list recipes names
      = generate_shopping_list recipes
          (names.filter (fun n => (resolveRecipe recipes (strLower n)).isSome))) ∧
    (∀ k, alookup (generate_shopping_list recipes names) k =
      (if specEntries recipes names k = [] then none
       else some (specEntries recipes names k))) := by
  constructor
  · rw [generate_eq, generate_eq, specPairs_filter_resolved]
  · intro k
    rw [generate_eq, alookup_appendAll]
    by_cases h : (specPairs recipes names).filter (fun p => p.1 = k) = []
    · rw [if_pos h]
      have he : specEntries recipes names k = [] := by
        rw [← specEntries_eq_filter, h]
        rfl
      rw [he]
      rfl
    · rw [if_neg h]
      have he : specEntries recipes names k ≠ [] := by
        rw [← specEntries_eq_filter]
        intro hc
        exact h (List.map_eq_nil_iff.mp hc)
      rw [if_neg he, specEntries_eq_filter]
      rfl

/-- `Except.ok` composed with bind reduces. -/
theorem except_bind_ok {α β : Type} (a : α) (f : α → Except Unit β) :
    (Except.ok a >>= f) = f a := rfl

/-- A successful `combineStep` computes exactly the spec's step. -/
theorem combineStep_ok_eq (acc : List (String × Amount)) (e : Entry)
    (acc' : List (String × Amount)) (h : combineStep acc e = Except.ok acc') :
    acc' = specCombineStep acc e := by
  obtain ⟨a, u, rn⟩ := e
  cases a with
  | num q =>
    simp only [combineStep, specCombineStep] at *
    cases hl : alookup acc u with
    | none =>
      simp only [hl, Except.ok.injEq] at h
      exact h.symm
    | some a0 =>
      cases a0 with
      | num q0 =>
        simp only [hl, Except.ok.injEq] at h
        exact h.symm
      | text s =>
        simp only [hl] at h
        exact absurd h (by simp)
  | text s0 =>
    simp only [combineStep, specCombineStep, Except.ok.injEq] at *
    exact h.symm

/-- A successful run of the `combined` loop computes exactly the fold of
the spec's step. -/
theorem combine_ok_eq (entries : List Entry) (acc m : List (String × Amount))
    (h : entries.foldlM combineStep acc = Except.ok m) :
    m = entries.foldl specCombineStep acc := by
  induction entries generalizing acc with
  | nil =>
    have hnil : (Except.ok acc : Except Unit (List (String × Amount)))
        = Except.ok m := h
    injection hnil with hh
    rw [List.foldl_nil]
    exact hh.symm
  | cons e rest ih =>
    rw [List.foldlM_cons] at h
    cases hstep : combineStep acc e with
    | error err =>
      rw [hstep] at h
      exact Except.noConfusion h
    | ok acc' =>
      rw [hstep, except_bind_ok] at h
      rw [List.foldl_cons, ← combineStep_ok_eq acc e acc' hstep]
      exact ih acc' h

/-- C1: whenever the per-item accumulation loop of `format_shopping_list`
(embedded as `combineEntries`) succeeds, its result is exactly the fold of
the spec's step: entries are bucketed by their literal (case-sensitive,
unnormalized) unit string, numeric amounts sharing a unit are summed
(buckets start at `0`), and a free-text amount overwrites its bucket —
last one wins. -/
theorem C1_unit_grouping (entries : List Entry) (m : List (String × Amount))
    (h : combineEntries entries = Except.ok m) :
    m = entries.foldl specCombineStep [] :=
  combine_ok_eq entries [] m h

/-- C1 witness: two numeric cup amounts summed, a free-text amount kept,
on a concrete success input. -/
theorem C1_witness :
    [(⟨Amount.num 1, "cup", "A"⟩ : Entry), ⟨Amount.num 2, "cup", "B"⟩,
     ⟨Amount.text "a pinch", "pinch", "C"⟩].foldl specCombineStep []
      = [("cup", Amount.num (0 + 1 + 2)), ("pinch", Amount.text "a pinch")] :=
  (C1_unit_grouping
    [⟨Amount.num 1, "cup", "A"⟩, ⟨Amount.num 2, "cup", "B"⟩,
     ⟨Amount.text "a pinch", "pinch", "C"⟩]
    [("cup", Amount.num (0 + 1 + 2)), ("pinch", Amount.text "a pinch")]
    rfl).symm

/-- An all-free-text bucket satisfies `bucketOk`. -/
theorem allText_bucketOk (l : List Amount) (h : allTextAmounts l = true) :
    bucketOk l = true := by
  induction l with
  | nil => rfl
  | cons a rest ih =>
    cases a with
    | num q => simp [allTextAmounts] at h
    | text s =>
      rw [bucketOk]
      simp only [allTextAmounts, List.all_cons, Bool.and_eq_true] at h
      simp only [allTextAmounts]
      exact h.2

/-- `goodSuffix` is preserved when the first entry is consumed. -/
theorem goodSuffix_tail (e : Entry) (es : List Entry)
    (h : goodSuffix (e :: es)) : goodSuffix es := by
  intro u
  have hu := h u
  rw [List.filter_cons] at hu
  by_cases hcond : e.unit = u
  · simp only [hcond, decide_True, if_true, List.map_cons] at hu
    cases ha : e.amount with
    | num q =>
      rw [ha, bucketOk] at hu
      exact hu
    | text s =>
      rw [ha, bucketOk] at hu
      exact allText_bucketOk _ hu
  · simp only [hcond, decide_False, Bool.false_eq_true, if_false] at hu
    exact hu

/-- The `combined` loop cannot raise when every unit bucket of the
remaining entries is `bucketOk` and every bucket already holding free text
sees only free text from now on. -/
theorem combine_no_error (es : List Entry) :
    ∀ acc, goodSuffix es →
    (∀ u s, alookup acc u = some (Amount.text s) →
        allTextAmounts ((es.filter (fun e => e.unit = u)).map
          (fun e => e.amount)) = true) →
    ∃ m, es.foldlM combineStep acc = Except.ok m := by
  induction es with
  | nil => exact fun acc _ _ => ⟨acc, rfl⟩
  | cons e rest ih =>
    intro acc hgood hinv
    cases ha : e.amount with
    | num q =>
      cases hl : alookup acc e.unit with
      | some a0 =>
        cases a0 with
        | text s =>
          have hcontra := hinv e.unit s hl
          rw [List.filter_cons] at hcontra
          simp [ha, allTextAmounts] at hcontra
        | num q0 =>
          have hstep : combineStep acc e
              = Except.ok (aset acc e.unit (Amount.num (q0 + q))) := by
            simp [combineStep, ha, hl]
          rw [List.foldlM_cons, hstep, except_bind_ok]
          apply ih _ (goodSuffix_tail _ _ hgood)
          intro u s hu
          by_cases hequ : u = e.unit
          · subst hequ
            rw [alookup_aset_self] at hu
            simp at hu
          · rw [alookup_aset_ne acc e.unit u _ hequ] at hu
            have hrest := hinv u s hu
            rw [List.filter_cons] at hrest
            simp only [if_neg, decide_False, Bool.false_eq_true,
              Ne.symm hequ, decide_eq_true_eq] at hrest
            exact hrest
      | none =>
        have hstep : combineStep acc e
            = Except.ok (aset acc e.unit (Amount.num (0 + q))) := by
          simp [combineStep, ha, hl]
        rw [List.foldlM_cons, hstep, except_bind_ok]
        apply ih _ (goodSuffix_tail _ _ hgood)
        intro u s hu
        by_cases hequ : u = e.unit
        · subst hequ
          rw [alookup_aset_self] at hu
          simp at hu
        · rw [alookup_aset_ne acc e.unit u _ hequ] at hu
          have hrest := hinv u s hu
          rw [List.filter_cons] at hrest
          simp only [if_neg, decide_False, Bool.false_eq_true,
            Ne.symm hequ, decide_eq_true_eq] at hrest
          exact hrest
    | text s0 =>
      have hstep : combineStep acc e
          = Except.ok (aset acc e.unit (Amount.text s0)) := by
        simp [combineStep, ha]
      rw [List.foldlM_cons, hstep, except_bind_ok]
      apply ih _ (goodSuffix_tail _ _ hgood)
      intro u s hu
      by_cases hequ : u = e.unit
      · subst hequ
        have hg := hgood e.unit
        rw [List.filter_cons] at hg
        simp only [decide_True, if_true, List.map_cons, ha, bucketOk] at hg
        exact hg
      · rw [alookup_aset_ne acc e.unit u _ hequ] at hu
        have hrest := hinv u s hu
        rw [List.filter_cons] at hrest
        simp only [if_neg, decide_False, Bool.false_eq_true,
          Ne.symm hequ, decide_eq_true_eq] at hrest
        exact hrest

/-- `entriesOk` gives `bucketOk` for EVERY unit, including the absent ones
(whose buckets are empty). -/
theorem entriesOk_goodSuffix (es : List Entry) (h : entriesOk es = true) :
    goodSuffix es := by
  intro u
  cases hf : es.filter (fun e => e.unit = u) with
  | nil => rw [List.map_nil]; rfl
  | cons e0 tail =>
    have he0 : e0 ∈ es.filter (fun e => e.unit = u) := by
      rw [hf]
      exact List.mem_cons_self _ _
    have hmem := List.mem_filter.mp he0
    have hunit : e0.unit = u := by simpa using hmem.2
    have hall := List.all_eq_true.mp h e0 hmem.1
    rw [hunit] at hall
    rw [hf] at hall
    exact hall

/-- The per-item loop succeeds on entries satisfying `entriesOk`. -/
theorem combineEntries_ok_of_entriesOk (es : List Entry)
    (h : entriesOk es = true) : ∃ m, combineEntries es = Except.ok m :=
  combine_no_error es [] (entriesOk_goodSuffix es h)
    (fun u s hu => by simp [alookup] at hu)

/-- `mapM` into `Except` succeeds when every element does. -/
theorem mapM_ok {α β : Type} (f : α → Except Unit β) (l : List α)
    (h : ∀ x ∈ l, ∃ y, f x = Except.ok y) :
    ∃ ys, l.mapM f = Except.ok ys := by
  induction l with
  | nil => exact ⟨[], rfl⟩
  | cons x rest ih =>
    obtain ⟨y, hy⟩ := h x (List.mem_cons_self _ _)
    obtain ⟨ys, hys⟩ := ih (fun z hz => h z (List.mem_cons_of_mem _ hz))
    refine ⟨y :: ys, ?_⟩
    rw [List.mapM_cons, hy, except_bind_ok, hys]
    rfl

/-- Membership is invariant under `insertItem`. -/
theorem mem_insertItem (p q : String × List Entry)
    (l : List (String × List Entry)) :
    q ∈ insertItem p l ↔ q = p ∨ q ∈ l := by
  induction l with
  | nil => simp [insertItem]
  | cons r rest ih =>
    rw [insertItem]
    by_cases h : strLe p.1 r.1
    · rw [if_pos h]
      simp [List.mem_cons]
    · rw [if_neg h]
      rw [List.mem_cons, ih, List.mem_cons]
      tauto

/-- Membership is invariant under the sort performed by the formatter. -/
theorem mem_sortItems (q : String × List Entry)
    (l : List (String × List Entry)) : q ∈ sortItems l ↔ q ∈ l := by
  induction l with
  | nil => simp [sortItems]
  | cons p rest ih =>
    rw [sortItems, mem_insertItem, ih, List.mem_cons]

/-- C2 counterexample: `format_shopping_list` DOES raise on a legal
shopping list: a free-text amount followed by a numeric amount in the same
unit bucket makes `combined[unit] += amount` a `str + number`, a
`TypeError` (modelled as `Except.error ()`). -/
theorem C2_counterexample :
    format_shopping_list
      [("flour", [⟨Amount.text "a pinch", "g", "A"⟩, ⟨Amount.num 1, "g", "B"⟩])]
      = Except.error () := rfl

/-- C2 (amended): `format_shopping_list` succeeds and returns a string for
every shopping list in which, within each item's unit buckets, no numeric
amount occurs after a free-text amount; with such an inversion present the
call raises `TypeError` (see the counterexample). -/
theorem C2_format_total (d : Shopping)
    (h : ∀ p ∈ d, entriesOk p.2 = true) :
    ∃ s, format_shopping_list d = Except.ok s := by
  by_cases hd : d.isEmpty
  · exact ⟨"Shopping list is empty.", by rw [format_shopping_list, if_pos hd]⟩
  · obtain ⟨body, hbody⟩ := mapM_ok
      (fun p => do
        let combined ← combineEntries p.2
        let parts := combined.foldl (fun parts uq =>
          if uq.1 ≠ "" then parts ++ [amountDisplay uq.2 ++ " " ++ uq.1]
          else if amountTruthy uq.2 then parts ++ [amountDisplay uq.2]
          else parts) []
        pure (if ¬ parts.isEmpty then
                "  [ ] " ++ p.1 ++ ": " ++ String.intercalate ", " parts
              else "  [ ] " ++ p.1))
      (sortItems d)
      (fun p hp => by
        obtain ⟨m, hm⟩ := combineEntries_ok_of_entriesOk p.2
          (h p ((mem_sortItems p d).mp hp))
        simp only [hm]
        exact ⟨_, rfl⟩)
    have hfin : format_shopping_list d =
        ((sortItems d).mapM (fun p => do
          let combined ← combineEntries p.2
          let parts := combined.foldl (fun parts uq =>
            if uq.1 ≠ "" then parts ++ [amountDisplay uq.2 ++ " " ++ uq.1]
            else if amountTruthy uq.2 then parts ++ [amountDisplay uq.2]
            else parts) []
          pure (if ¬ parts.isEmpty then
                  "  [ ] " ++ p.1 ++ ": " ++ String.intercalate ", " parts
                else "  [ ] " ++ p.1))) >>= (fun body =>
          Except.ok (String.intercalate "\n"
            (["\n--- Shopping List ---\n"] ++ body ++ [""]))) := by
      rw [format_shopping_list, if_neg hd]
    refine ⟨String.intercalate "\n"
      (["\n--- Shopping List ---\n"] ++ body ++ [""]), ?_⟩
    rw [hfin, hbody]
    rfl

/-- C2 witness: a mixed but inversion-free list formats successfully. -/
theorem C2_witness :
    ∃ s, format_shopping_list
      [("flour", [⟨Amount.num 1, "g", "A"⟩, ⟨Amount.text "a pinch", "g", "B"⟩]),
       ("milk", [⟨Amount.num 2, "cups", "A"⟩])] = Except.ok s :=
  C2_format_total
    [("flour", [⟨Amount.num 1, "g", "A"⟩, ⟨Amount.text "a pinch", "g", "B"⟩]),
     ("milk", [⟨Amount.num 2, "cups", "A"⟩])]
    (by decide)
